import Mathlib

/-!
Verification of the DDL-to-dbt-YAML converter core of this repository
(`ddl_to_dbt_dim_yaml.py` and `ddl_to_dbt_stage_yaml.py`).

The Python scripts parse SQL Server `CREATE TABLE` scripts with a handful of
regular expressions and a depth-aware comma splitter, and assemble a dbt
schema document.  This file shallowly embeds that code:

* every regular expression of the source is modelled by a dedicated
  character-list scanner reproducing the Python `re` semantics (leftmost
  match, greedy and lazy groups, backtracking of optional groups,
  case-insensitive keywords, word boundaries, DOTALL where the source sets
  it) for the pattern fragments the source uses;
* `\w`, `\s` and case mapping are modelled on ASCII, which covers the
  SSMS-dialect inputs of the tool;
* the YAML document is modelled up to serialization: the emitted structure
  (key order, presence of keys, single-quoted-scalar tagging) is kept, the
  textual rendering is not.

Definitions follow the source; names keep the Python names where possible.
-/

set_option maxRecDepth 8000

namespace DbtDdl

/-! ### Character classes and Python string helpers -/

/-- Python `\s` (ASCII part): space, tab, newline, carriage return,
vertical tab, form feed. -/
def isWS (c : Char) : Bool :=
  c = ' ' || c = '\t' || c = '\n' || c = '\r' || c = '\x0B' || c = '\x0C'

/-- Python `\w` on ASCII: letters, digits, underscore. -/
def isWC (c : Char) : Bool := c.isAlphanum || c = '_'

def strOf (l : List Char) : String := ⟨l⟩

/-- Remove a maximal suffix of characters satisfying `p` (Python `rstrip`). -/
def rstripP (p : Char → Bool) (l : List Char) : List Char :=
  (l.reverse.dropWhile p).reverse

/-- Python `str.strip()` (whitespace both ends). -/
def pyStrip (l : List Char) : List Char := rstripP isWS (l.dropWhile isWS)

def pyStripStr (s : String) : String := strOf (pyStrip s.data)

def toLowerStr (s : String) : String := strOf (s.data.map Char.toLower)

/-- Python `[c.strip() for c in s.split(",") if c.strip()]`. -/
def pyCsv (s : String) : List String :=
  ((s.splitOn ",").map pyStripStr).filter (fun c => c ≠ "")

/-! ### Scanner primitives (models of `re` fragments) -/

/-- Consume a literal keyword case-insensitively; `none` if it does not
start the input. -/
def dropKwCI : List Char → List Char → Option (List Char)
  | [], s => some s
  | _ :: _, [] => none
  | k :: ks, c :: cs => if c.toLower = k.toLower then dropKwCI ks cs else none

def kw (w : String) (s : List Char) : Option (List Char) := dropKwCI w.data s

/-- `\s+` (greedy; every call site is followed by a non-whitespace token, so
maximal munch is faithful). -/
def ws1 : List Char → Option (List Char)
  | [] => none
  | c :: cs => if isWS c then some (cs.dropWhile isWS) else none

/-- `\s*` before a required non-whitespace token. -/
def ws0 (s : List Char) : List Char := s.dropWhile isWS

/-- A single required literal character. -/
def chr (c : Char) : List Char → Option (List Char)
  | [] => none
  | x :: r => if x = c then some r else none

/-- `\w+` (greedy; every use site is followed by a non-word token). -/
def word1 (s : List Char) : Option (List Char × List Char) :=
  let w := s.takeWhile isWC
  if w.isEmpty then none else some (w, s.dropWhile isWC)

/-- `\d+` returning the decimal value (Python `int`). -/
def digits1 (s : List Char) : Option (Nat × List Char) :=
  let w := s.takeWhile Char.isDigit
  if w.isEmpty then none
  else some (w.foldl (fun n c => n * 10 + (c.toNat - 48)) 0, s.dropWhile Char.isDigit)

/-- `\[(\w+)\]`. -/
def brkW : List Char → Option (List Char × List Char)
  | '[' :: r =>
    match word1 r with
    | some (w, ']' :: r2) => some (w, r2)
    | _ => none
  | _ => none

/-- `\[\s*(\w+)\s*\]` (the source's `BRACKETED_COL_RE`). -/
def brkWS : List Char → Option (List Char × List Char)
  | '[' :: r =>
    match word1 (r.dropWhile isWS) with
    | some (w, r2) =>
      match r2.dropWhile isWS with
      | ']' :: r3 => some (w, r3)
      | _ => none
    | _ => none
  | _ => none

/-- `BRACKETED_COL_RE.findall`: all non-overlapping matches, scanning left to
right (fuel = input length, one unit per consumed character). -/
def findAllBrk : Nat → List Char → List String
  | 0, _ => []
  | _ + 1, [] => []
  | fuel + 1, s =>
    match brkWS s with
    | some (w, r) => strOf w :: findAllBrk fuel r
    | none =>
      match s with
      | [] => []
      | _ :: cs => findAllBrk fuel cs

/-- Python `BRACKETED_COL_RE.findall(s)`. -/
def bracketedAll (s : String) : List String := findAllBrk s.data.length s.data

/-- Word-boundary helper: no word character on the previous side. -/
def noWB : Option Char → Bool
  | none => true
  | some c => !isWC c

/-- Word-boundary helper: next character (if any) is not a word character. -/
def nextNotW : List Char → Bool
  | [] => true
  | c :: _ => !isWC c

/-- Next character exists and is a word character. -/
def nextIsW : List Char → Bool
  | [] => false
  | c :: _ => isWC c

/-- `re.search` scanning positions left to right.  The matcher receives the
character before the current position (for `\b`).  On success returns the
text before the match, the text from the match start on, and the payload. -/
def searchSplit {α : Type} (m : Option Char → List Char → Option α) :
    Option Char → List Char → Option (List Char × List Char × α)
  | prev, s =>
    match m prev s with
    | some a => some ([], s, a)
    | none =>
      match s with
      | [] => none
      | c :: cs =>
        match searchSplit m (some c) cs with
        | some (p, suf, a) => some (c :: p, suf, a)
        | none => none

/-! ### The embedded-constraint regexes and the splitter -/

/-- `\bPRIMARY\s+KEY\b` at the current position. -/
def mPkKw (prev : Option Char) (s : List Char) : Option Unit := do
  guard (noWB prev)
  let r1 ← kw "PRIMARY" s
  let r2 ← ws1 r1
  let r3 ← kw "KEY" r2
  guard (nextNotW r3)
  pure ()

/-- `\bUNIQUE\b` at the current position. -/
def mUqKw (prev : Option Char) (s : List Char) : Option Unit := do
  guard (noWB prev)
  let r1 ← kw "UNIQUE" s
  guard (nextNotW r1)
  pure ()

/-- `EMBEDDED_TBL_CONSTRAINT_RE` (dim variant):
`\bCONSTRAINT\b.*?(?:\bPRIMARY\s+KEY\b|\bUNIQUE\b).*` with DOTALL.  Matching
at a position needs a word-bounded `CONSTRAINT` there and either keyword
somewhere later; the trailing `.*` always succeeds. -/
def mEmbDim (prev : Option Char) (s : List Char) : Option Unit :=
  if noWB prev then
    match kw "CONSTRAINT" s with
    | some r1 =>
      if nextNotW r1 then
        if (searchSplit (fun p t => (mPkKw p t).orElse (fun _ => mUqKw p t)) (some 'T') r1).isSome
        then some () else none
      else none
    | none => none
  else none

/-- `EMBEDDED_PK_RE` (stage variant): `\bCONSTRAINT\b.*?\bPRIMARY\s+KEY\b.*`. -/
def mEmbStage (prev : Option Char) (s : List Char) : Option Unit :=
  if noWB prev then
    match kw "CONSTRAINT" s with
    | some r1 =>
      if nextNotW r1 then
        if (searchSplit mPkKw (some 'T') r1).isSome then some () else none
      else none
    | none => none
  else none

def embFindDim (s : List Char) : Option (List Char × List Char × Unit) :=
  searchSplit mEmbDim none s

def embFindStage (s : List Char) : Option (List Char × List Char × Unit) :=
  searchSplit mEmbStage none s

/-- One step of the splitter's depth tracking. -/
def stepDepth (d : Int) (c : Char) : Int :=
  if c = '(' then d + 1 else if c = ')' then d - 1 else d

/-- The character loop of `split_columns_block`: split on commas at depth 0,
stripping each piece; the final piece is kept only if nonempty (Python
appends intermediate pieces even when they strip to empty). -/
def rawItemsAux : List Char → List Char → Int → List String
  | [], buf, _ =>
    let t := pyStrip buf.reverse
    if t = [] then [] else [strOf t]
  | c :: rest, buf, d =>
    let d2 := stepDepth d c
    if c = ',' ∧ d2 = 0 then strOf (pyStrip buf.reverse) :: rawItemsAux rest [] d2
    else rawItemsAux rest (c :: buf) d2

def rawItems (body : String) : List String := rawItemsAux body.data [] 0

/-- Independent count of the splitter's break points: commas seen at
parenthesis depth zero (depth updated before the check, as in the source). -/
def topCommaCount : List Char → Int → Nat
  | [], _ => 0
  | c :: rest, d =>
    let d2 := stepDepth d c
    (if c = ',' ∧ d2 = 0 then 1 else 0) + topCommaCount rest d2

/-- The stripped content of the buffer left when the loop ends. -/
def lastChunk : List Char → List Char → Int → List Char
  | [], buf, _ => pyStrip buf.reverse
  | c :: rest, buf, d =>
    let d2 := stepDepth d c
    if c = ',' ∧ d2 = 0 then lastChunk rest [] d2 else lastChunk rest (c :: buf) d2

/-- `re.match(r"^\s*\[", it)`. -/
def startsBracket (it : String) : Bool := (it.data.dropWhile isWS).head? = some '['

/-- The classification loop of `split_columns_block`: items starting with a
bracket are column items, except that an embedded table-level constraint is
cut off (head re-added to columns, tail to constraints, each if nonempty);
everything else is a constraint item. -/
def classifyAux (emb : List Char → Option (List Char × List Char × Unit)) :
    List String → List String × List String
  | [] => ([], [])
  | it :: rest =>
    let r := classifyAux emb rest
    if startsBracket it then
      match emb it.data with
      | some (pre, suf, _) =>
        let head := strOf (rstripP (fun c => c = ',') (rstripP isWS pre))
        let tail := strOf (pyStrip suf)
        ((if head ≠ "" then head :: r.1 else r.1),
         (if tail ≠ "" then tail :: r.2 else r.2))
      | none => (pyStripStr it :: r.1, r.2)
    else (r.1, pyStripStr it :: r.2)

/-- `split_columns_block` of `ddl_to_dbt_dim_yaml.py`. -/
def split_columns_block_dim (body : String) : List String × List String :=
  classifyAux embFindDim (rawItems body)

/-- `split_columns_block` of `ddl_to_dbt_stage_yaml.py`. -/
def split_columns_block_stage (body : String) : List String × List String :=
  classifyAux embFindStage (rawItems body)

/-! ### `COLUMN_LINE_RE` and the column parser -/

/-- The optional precision group of `COLUMN_LINE_RE`:
`\s*\(\s*(?:MAX|\d+(?:\s*,\s*\d+)?)\s*\)`; returns the rest on success
(backtracking order: `MAX`, then digits with scale, then digits alone). -/
def matchPrecisionRest (s : List Char) : Option (List Char) :=
  let closeAfter : List Char → Option (List Char) := fun r =>
    match ws0 r with
    | ')' :: r8 => some r8
    | _ => none
  match ws0 s with
  | '(' :: r2 =>
    let r3 := ws0 r2
    ((kw "MAX" r3).bind closeAfter).orElse (fun _ =>
      match digits1 r3 with
      | some (_, r5) =>
        let withScale : Option (List Char) :=
          match ws0 r5 with
          | ',' :: r6 =>
            match digits1 (ws0 r6) with
            | some (_, r7) => closeAfter r7
            | none => none
          | _ => none
        withScale.orElse (fun _ => closeAfter r5)
      | none => none)
  | _ => none

/-- `COLUMN_LINE_RE.match`: `^\s*\[(?P<name>\w+)\]\s+(?P<dtype>...)` followed
by `(?P<rest>.*)$` (no DOTALL/MULTILINE: the rest may not contain a newline
except a single final one).  Returns (name, dtype, rest). -/
def matchColumnLine (s : List Char) : Option (String × String × String) :=
  match s.dropWhile isWS with
  | '[' :: r =>
    match word1 r with
    | some (nm, ']' :: r2) =>
      match ws1 r2 with
      | some r3 =>
        let (o1, r4) := match r3 with
          | '[' :: t => (['['], t)
          | _ => (([] : List Char), r3)
        match word1 r4 with
        | some (w, r5) =>
          let (o2, r6) := match r5 with
            | ']' :: t => ([']'], t)
            | _ => (([] : List Char), r5)
          let (prec, r7) := match matchPrecisionRest r6 with
            | some t => (r6.take (r6.length - t.length), t)
            | none => (([] : List Char), r6)
          let pre := r7.takeWhile (fun c => c ≠ '\n')
          let post := r7.drop pre.length
          if post = [] ∨ post = ['\n'] then
            some (strOf nm, strOf (o1 ++ w ++ o2 ++ prec), strOf pre)
          else none
        | none => none
      | none => none
    | _ => none
  | _ => none

/-- `\bNOT\s+NULL\b`. -/
def mNotNull (prev : Option Char) (s : List Char) : Option Unit := do
  guard (noWB prev)
  let r1 ← kw "NOT" s
  let r2 ← ws1 r1
  let r3 ← kw "NULL" r2
  guard (nextNotW r3)
  pure ()

/-- `\bNULL\b`. -/
def mNullKw (prev : Option Char) (s : List Char) : Option Unit := do
  guard (noWB prev)
  let r1 ← kw "NULL" s
  guard (nextNotW r1)
  pure ()

def hasNotNull (s : String) : Bool := (searchSplit mNotNull none s.data).isSome

def hasNullKw (s : String) : Bool := (searchSplit mNullKw none s.data).isSome

def hasPkWord (s : String) : Bool := (searchSplit mPkKw none s.data).isSome

/-- `IDENTITY\s*\(\s*(\d+)\s*,\s*(\d+)\s*\)` at the current position. -/
def mIdentity (s : List Char) : Option (Nat × Nat) := do
  let r1 ← kw "IDENTITY" s
  let r3 ← chr '(' (ws0 r1)
  let (d1, r4) ← digits1 (ws0 r3)
  let r5 ← chr ',' (ws0 r4)
  let (d2, r6) ← digits1 (ws0 r5)
  let _ ← chr ')' (ws0 r6)
  pure (d1, d2)

def searchIdentity (s : String) : Option (Nat × Nat) :=
  (searchSplit (fun _ t => mIdentity t) none s.data).map (fun x => x.2.2)

/-- The lazy middle of the inline-default group `\(?.*?\)?\b`: `gacc` holds
the group content so far (reversed), `prevC` the character before the
current position.  Backtracking order per position: close-paren then word
boundary, no close then word boundary, consume one non-newline character. -/
def defLazy : List Char → Char → List Char → Option (List Char)
  | gacc, prevC, s =>
    let b1 : Option (List Char) :=
      match s with
      | ')' :: r => if nextIsW r then some (gacc.reverse ++ [')']) else none
      | _ => none
    match b1 with
    | some g => some g
    | none =>
      let after := match s with
        | c :: _ => isWC c
        | [] => false
      if (isWC prevC) ≠ after then some gacc.reverse
      else
        match s with
        | c :: r => if c = '\n' then none else defLazy (c :: gacc) c r
        | [] => none

/-- The group `(\(?.*?\)?)\b` (greedy `\(?` first). -/
def defGroupFrom (prevC : Char) (s : List Char) : Option (List Char) :=
  match s with
  | '(' :: r => (defLazy ['('] '(' r).orElse (fun _ => defLazy [] prevC s)
  | _ => defLazy [] prevC s

/-- Backtracking of the greedy `\s+` before the group: try the maximal run
first, then give back one whitespace character at a time (minimum one). -/
def tryRunsDefault : Nat → List Char → Option (List Char)
  | 0, _ => none
  | n + 1, r => (defGroupFrom ' ' (r.drop (n + 1))).orElse (fun _ => tryRunsDefault n r)

/-- `\bDEFAULT\s+(\(?.*?\)?)\b` at the current position (no DOTALL). -/
def mDefaultInline (prev : Option Char) (s : List Char) : Option (List Char) := do
  guard (noWB prev)
  let r ← kw "DEFAULT" s
  let run := r.takeWhile isWS
  guard (!run.isEmpty)
  tryRunsDefault run.length r

def searchDefaultInline (s : String) : Option String :=
  (searchSplit mDefaultInline none s.data).map (fun x => strOf (pyStrip x.2.2))

structure PyColumn where
  name : String
  data_type : String
  nullable : Bool
  identity : Option (Nat × Nat)
  inline_default : Option String
deriving DecidableEq, Repr

/-- The per-item body shared by both variants' `parse_columns`; the Bool is
the stage variant's inline-`PRIMARY KEY` flag (scanned on the stripped
rest-of-line). -/
def parseOneColumn (raw : String) : Option (PyColumn × Bool) :=
  match matchColumnLine raw.data with
  | none => none
  | some (nm, dtypeRaw, rest) =>
    let dtype_raw := pyStripStr dtypeRaw
    let dtype_clean := dtype_raw.data.filter (fun c => c ≠ '[' ∧ c ≠ ']')
    let restS := pyStripStr rest
    let ident := searchIdentity restS
    let nullable := if hasNotNull restS then false else if hasNullKw restS then true else true
    let inline_default := searchDefaultInline restS
    some (⟨nm, strOf (dtype_clean.map Char.toUpper), nullable, ident, inline_default⟩,
          hasPkWord restS)

/-- `parse_columns` of the dim variant (unmatched items silently skipped). -/
def parse_columns (col_items : List String) : List PyColumn :=
  col_items.filterMap (fun raw => (parseOneColumn raw).map Prod.fst)

/-- `parse_columns` of the stage variant: also collects inline PK names. -/
def parse_columns_stage : List String → List PyColumn × List String
  | [] => ([], [])
  | raw :: rest =>
    let (cs, pks) := parse_columns_stage rest
    match parseOneColumn raw with
    | none => (cs, pks)
    | some (col, isPk) => (col :: cs, if isPk then col.name :: pks else pks)

/-- The inline-PK half of the dim variant's `parse_primary_key`: scans the
raw item for `\bPRIMARY\s+KEY\b` and re-matches `COLUMN_LINE_RE` for the
name. -/
def dimInlinePks (col_items : List String) : List String :=
  col_items.filterMap (fun raw =>
    if hasPkWord raw then (matchColumnLine raw.data).map (fun x => x.1) else none)

/-! ### Table-level constraint regexes -/

/-- `\s*\((?P<cols>.*?)\)` with DOTALL: the lazy group is everything up to
the first close paren, which must exist. -/
def parenColsFirstClose (r : List Char) : Option (List Char × List Char) :=
  match ws0 r with
  | '(' :: r2 =>
    let cols := r2.takeWhile (fun c => c ≠ ')')
    match r2.drop cols.length with
    | ')' :: r3 => some (cols, r3)
    | _ => none
  | _ => none

/-- `(?:\s+CLUSTERED|\s+NONCLUSTERED)?\s*\((cols)\)` (backtracking order:
CLUSTERED, NONCLUSTERED, neither). -/
def afterKeyCols (r : List Char) : Option (List Char × List Char) :=
  (do
    let a ← ws1 r
    let b ← kw "CLUSTERED" a
    parenColsFirstClose b).orElse (fun _ =>
  (do
    let a ← ws1 r
    let b ← kw "NONCLUSTERED" a
    parenColsFirstClose b).orElse (fun _ =>
  parenColsFirstClose r))

/-- `PRIMARY_KEY_RE` at the current position: optional `CONSTRAINT [name]`
prefix, `PRIMARY\s+KEY`, optional clustering keyword, then the column
group.  Returns the `cols` group. -/
def mPkConstraint (s : List Char) : Option (List Char) :=
  let core : List Char → Option (List Char) := fun t => do
    let r1 ← kw "PRIMARY" t
    let r2 ← ws1 r1
    let r3 ← kw "KEY" r2
    let (cols, _) ← afterKeyCols r3
    pure cols
  (do
    let r1 ← kw "CONSTRAINT" s
    let r2 ← ws1 r1
    let (_, r3) ← brkW r2
    let r4 ← ws1 r3
    core r4).orElse (fun _ => core s)

/-- `UNIQUE_CONSTRAINT_RE` at the current position (dim variant only). -/
def mUqConstraint (s : List Char) : Option (List Char) :=
  let core : List Char → Option (List Char) := fun t => do
    let r1 ← kw "UNIQUE" t
    let (cols, _) ← afterKeyCols r1
    pure cols
  (do
    let r1 ← kw "CONSTRAINT" s
    let r2 ← ws1 r1
    let (_, r3) ← brkW r2
    let r4 ← ws1 r3
    core r4).orElse (fun _ => core s)

def pkConstraintSearch (c : String) : Option String :=
  (searchSplit (fun _ t => mPkConstraint t) none c.data).map (fun x => strOf x.2.2)

def uqConstraintSearch (c : String) : Option String :=
  (searchSplit (fun _ t => mUqConstraint t) none c.data).map (fun x => strOf x.2.2)

/-- The first constraint item on which `PRIMARY_KEY_RE` matches (loop with
early return in both variants). -/
def firstPkConstraintCols : List String → Option String
  | [] => none
  | c :: cs =>
    match pkConstraintSearch c with
    | some g => some g
    | none => firstPkConstraintCols cs

/-- `parse_primary_key` of the dim variant: the first matching table-level
constraint wins outright; the inline markers are consulted only when no
constraint matches. -/
def parse_primary_key (constraints col_items : List String) : List String :=
  match firstPkConstraintCols constraints with
  | some g => bracketedAll g
  | none => dimInlinePks col_items

/-- `parse_primary_key_from_constraints` of the stage variant. -/
def parse_primary_key_from_constraints (constraints : List String) : List String :=
  match firstPkConstraintCols constraints with
  | some g => bracketedAll g
  | none => []

/-! ### `UNIQUE_INDEX_RE` and business-key resolution -/

structure UIdx where
  schema : Option String
  table : String
  cols : String
deriving DecidableEq, Repr

/-- `UNIQUE_INDEX_RE` at the current position.  Note the source pattern is
`CREATE\s+UNIQUE\s+(?:CLUSTERED|NONCLUSTERED)?\s+INDEX...`: when the
clustering keyword is absent the two `\s+` both need a character, so at
least two whitespace characters must separate `UNIQUE` from `INDEX`. -/
def mUniqueIndex (s : List Char) : Option (UIdx × List Char) := do
  let r1 ← kw "CREATE" s
  let r2 ← ws1 r1
  let r3 ← kw "UNIQUE" r2
  let r4 ← (do
      let a ← ws1 r3
      let b ← kw "CLUSTERED" a
      ws1 b).orElse (fun _ =>
    (do
      let a ← ws1 r3
      let b ← kw "NONCLUSTERED" a
      ws1 b).orElse (fun _ =>
    (let run := r3.takeWhile isWS
     if run.length ≥ 2 then some (r3.drop run.length) else none)))
  let r5 ← kw "INDEX" r4
  let r6 ← ws1 r5
  let (_, r7) ← brkW r6
  let r8 ← ws1 r7
  let r9 ← kw "ON" r8
  let r10 ← ws1 r9
  let (sch, tbl, r11) ←
    (match brkW r10 with
     | some (w1, '.' :: t) =>
       match brkW t with
       | some (w2, t2) => some (some (strOf w1), strOf w2, t2)
       | none => none
     | some (w1, t) => some ((none : Option String), strOf w1, t)
     | none => none)
  let (cols, r12) ← parenColsFirstClose r11
  pure (⟨sch, tbl, strOf cols⟩, r12)

def finditerUIdx : Nat → List Char → List UIdx
  | 0, _ => []
  | _ + 1, [] => []
  | fuel + 1, s =>
    match mUniqueIndex s with
    | some (u, r) => u :: finditerUIdx fuel r
    | none =>
      match s with
      | [] => []
      | _ :: cs => finditerUIdx fuel cs

/-- `UNIQUE_INDEX_RE.finditer(sql)`. -/
def uniqueIndexMatches (sql : String) : List UIdx := finditerUIdx sql.data.length sql.data

/-- The first constraint item whose `UNIQUE_CONSTRAINT_RE` match has a
nonempty bracketed column list (the source's first loop, which skips a
match whose `findall` is empty). -/
def firstUqNonempty : List String → Option (List String)
  | [] => none
  | c :: cs =>
    match uqConstraintSearch c with
    | some g =>
      let cols := bracketedAll g
      if cols ≠ [] then some cols else firstUqNonempty cs
    | none => firstUqNonempty cs

/-- Does a unique-index match target the table being parsed (schema
defaulted to dbo on both sides, case-insensitive)? -/
def uidxTargets (u : UIdx) (schema table : String) : Bool :=
  toLowerStr (u.schema.getD "dbo") = toLowerStr (if schema = "" then "dbo" else schema)
    && toLowerStr u.table = toLowerStr table

/-- The source's second loop: first matching-table index with a nonempty
bracketed column list wins. -/
def uqIndexScan (schema table : String) : List UIdx → List String
  | [] => []
  | u :: us =>
    if uidxTargets u schema table then
      let cols := bracketedAll u.cols
      if cols ≠ [] then cols else uqIndexScan schema table us
    else uqIndexScan schema table us

/-- `parse_unique_business_key` of the dim variant. -/
def parse_unique_business_key (sql : String) (constraints : List String)
    (schema table : String) : List String :=
  match firstUqNonempty constraints with
  | some cols => cols
  | none => uqIndexScan schema table (uniqueIndexMatches sql)

/-! ### `DEFAULT_FOR_RE` and default expressions -/

structure DfRec where
  schema : Option String
  table : String
  expr : String
  col : String
deriving DecidableEq, Repr

/-- The lazy `(?P<expr>.*?)\)\s+FOR\s+\[(?P<col>\w+)\]` continuation: at
each close paren try the `FOR [col]` tail first, else treat the paren as
expression content (DOTALL). -/
def dfExprTail : List Char → List Char → Option (List Char × String × List Char)
  | acc, ')' :: r =>
    (do
      let r1 ← ws1 r
      let r2 ← kw "FOR" r1
      let r3 ← ws1 r2
      let (c, r4) ← brkW r3
      pure (acc.reverse, strOf c, r4)).orElse (fun _ => dfExprTail (')' :: acc) r)
  | acc, c :: r => dfExprTail (c :: acc) r
  | _, [] => none

/-- `DEFAULT_FOR_RE` at the current position. -/
def mDefaultFor (s : List Char) : Option (DfRec × List Char) := do
  let r1 ← kw "ALTER" s
  let r2 ← ws1 r1
  let r3 ← kw "TABLE" r2
  let r4 ← ws1 r3
  let (sch, tbl, r5) ←
    (match brkW r4 with
     | some (w1, '.' :: t) =>
       match brkW t with
       | some (w2, t2) => some (some (strOf w1), strOf w2, t2)
       | none => none
     | some (w1, t) => some ((none : Option String), strOf w1, t)
     | none => none)
  let r6 ← ws1 r5
  let r7 ← kw "ADD" r6
  let r8 ← ws1 r7
  let r9 ← kw "CONSTRAINT" r8
  let r10 ← ws1 r9
  let (_, r11) ← brkW r10
  let r12 ← ws1 r11
  let r13 ← kw "DEFAULT" r12
  let r14 ← chr '(' (ws0 r13)
  let (expr, col, r15) ← dfExprTail [] r14
  pure (⟨sch, tbl, strOf expr, col⟩, r15)

def finditerDf : Nat → List Char → List DfRec
  | 0, _ => []
  | _ + 1, [] => []
  | fuel + 1, s =>
    match mDefaultFor s with
    | some (u, r) => u :: finditerDf fuel r
    | none =>
      match s with
      | [] => []
      | _ :: cs => finditerDf fuel cs

/-- `DEFAULT_FOR_RE.finditer(sql)`. -/
def defaultMatches (sql : String) : List DfRec := finditerDf sql.data.length sql.data

/-- Python dict insertion: keep the first-seen key position, overwrite the
value. -/
def pyDictInsert (m : List (String × String)) (k v : String) : List (String × String) :=
  if m.any (fun p => p.1 = k) then m.map (fun p => if p.1 = k then (k, v) else p)
  else m ++ [(k, v)]

/-- `parse_default_alters`: a dict comprehension over the matches, keyed by
the column name alone (the targeted schema/table are captured but unused). -/
def parse_default_alters (sql : String) : List (String × String) :=
  (defaultMatches sql).foldl (fun m r => pyDictInsert m r.col (pyStripStr r.expr)) []

/-! ### Unknown-member synthesis (dim variant) -/

/-- Does `\s*\(.*\)$` match at this position (no DOTALL; `$` also matches
before one final newline)?  Returns the part of the input the substitution
leaves behind after the match. -/
def parenTail (s : List Char) : Option (List Char) :=
  match s.dropWhile isWS with
  | '(' :: r2 =>
    if r2.getLast? = some ')' ∧ (r2.dropLast).all (fun c => c ≠ '\n') then some []
    else if r2.getLast? = some '\n' ∧ r2.dropLast.getLast? = some ')'
        ∧ (r2.dropLast.dropLast).all (fun c => c ≠ '\n') then some ['\n']
    else none
  | _ => none

/-- `re.sub(r"\s*\(.*\)$", "", t)`: delete the leftmost such match. -/
def stripTrailParenAux : List Char → List Char → List Char
  | accRev, s =>
    match parenTail s with
    | some tail => accRev.reverse ++ tail
    | none =>
      match s with
      | [] => accRev.reverse
      | c :: r => stripTrailParenAux (c :: accRev) r

/-- `canonical_base_type`: strip brackets, trim, uppercase, drop a trailing
parenthesized precision. -/
def canonical_base_type (dtype : String) : String :=
  let t := (pyStrip (dtype.data.filter (fun c => c ≠ '[' ∧ c ≠ ']'))).map Char.toUpper
  strOf (stripTrailParenAux [] t)

inductive PyVal where
  | vint (n : Int)
  | vstr (s : String)
deriving DecidableEq, Repr

/-- Python `str(...)` on the values stored in `UNKNOWN_BY_TYPE`. -/
def pyStrOf : PyVal → String
  | .vint n => toString n
  | .vstr s => s

/-- The return type of `unknown_for_dtype`: either a raw Python value
(emitted bare) or a `SingleQuoted` string (emitted as a single-quoted YAML
scalar). -/
inductive UnknownMember where
  | raw (v : PyVal)
  | singleQuoted (s : String)
deriving DecidableEq, Repr

def NUMERIC_BASES : List String :=
  ["TINYINT", "SMALLINT", "INT", "BIGINT", "DECIMAL", "NUMERIC", "FLOAT", "REAL",
   "MONEY", "SMALLMONEY", "BIT"]

def UNKNOWN_BY_TYPE : String → Option PyVal
  | "TINYINT" => some (.vint 0)
  | "SMALLINT" => some (.vint (-1))
  | "INT" => some (.vint (-1))
  | "BIGINT" => some (.vint (-1))
  | "DECIMAL" => some (.vint (-1))
  | "NUMERIC" => some (.vint (-1))
  | "FLOAT" => some (.vint (-1))
  | "REAL" => some (.vint (-1))
  | "MONEY" => some (.vint (-1))
  | "SMALLMONEY" => some (.vint (-1))
  | "BIT" => some (.vint 0)
  | "NVARCHAR" => some (.vstr "Unknown")
  | "VARCHAR" => some (.vstr "Unknown")
  | "NCHAR" => some (.vstr "U")
  | "CHAR" => some (.vstr "U")
  | "TEXT" => some (.vstr "Unknown")
  | "NTEXT" => some (.vstr "Unknown")
  | "UNIQUEIDENTIFIER" => some (.vstr "00000000-0000-0000-0000-000000000000")
  | "DATE" => some (.vstr "1900-01-01")
  | "TIME" => some (.vstr "00:00:00")
  | "DATETIME" => some (.vstr "1900-01-01T00:00:00")
  | "SMALLDATETIME" => some (.vstr "1900-01-01T00:00:00")
  | "DATETIME2" => some (.vstr "1900-01-01T00:00:00")
  | "DATETIMEOFFSET" => some (.vstr "1900-01-01T00:00:00Z")
  | "BINARY" => some (.vstr "0x")
  | "VARBINARY" => some (.vstr "0x")
  | "XML" => some (.vstr "<unknown/>")
  | _ => none

/-- The body of `unknown_for_dtype` after the base type is computed. -/
def unknownFromBase (base : String) : UnknownMember :=
  let val := (UNKNOWN_BY_TYPE base).getD (.vstr "Unknown")
  if NUMERIC_BASES.contains base then .raw val else .singleQuoted (pyStrOf val)

def unknown_for_dtype (dtype : String) : UnknownMember :=
  unknownFromBase (canonical_base_type dtype)

/-! ### Document emission -/

inductive YVal where
  | ys (v : String)
  | yb (v : Bool)
  | yls (v : List String)
  | yid (seed increment : Nat)
  | yunk (u : UnknownMember)
deriving DecidableEq, Repr

structure ColEntry where
  name : String
  description : String
  data_type : String
  meta : List (String × YVal)
deriving DecidableEq, Repr

structure ModelEntry where
  name : String
  description : String
  meta : List (String × YVal)
  columns : List ColEntry
deriving DecidableEq, Repr

structure DimDoc where
  models : List ModelEntry
deriving DecidableEq, Repr

structure StageDoc where
  version : Rat
  models : List ModelEntry
deriving DecidableEq, Repr

/-- Python `a or b` on optional strings (empty string is falsy). -/
def pyOr (a b : Option String) : Option String :=
  match a with
  | some s => if s = "" then b else some s
  | none => b

/-- Python truthiness filter on an optional string. -/
def truthyStr : Option String → Option String
  | some s => if s = "" then none else some s
  | none => none

def colMetaDim (dm : List (String × String)) (c : PyColumn) : List (String × YVal) :=
  [("nullable", .yb c.nullable), ("unknown_member", .yunk (unknown_for_dtype c.data_type))]
  ++ (match c.identity with
      | some (s, i) => [("identity", YVal.yid s i)]
      | none => [])
  ++ (match truthyStr (pyOr (dm.lookup c.name) c.inline_default) with
      | some e => [("default_expression", YVal.ys e)]
      | none => [])

/-- `emit_dim_yaml` up to serialization. -/
def emit_dim_yaml (table : String) (columns : List PyColumn)
    (surrogate_key : Option String) (business_key_cols : List String)
    (default_map : List (String × String)) : DimDoc :=
  { models := [{
      name := table
      description := ""
      meta := [("business_key", .yls business_key_cols),
               ("surrogate_key", .ys (surrogate_key.getD ""))]
      columns := columns.map (fun c =>
        { name := c.name, description := "", data_type := c.data_type
          meta := colMetaDim default_map c }) }] }

def colMetaStage (dm : List (String × String)) (c : PyColumn) : List (String × YVal) :=
  [("nullable", .yb c.nullable)]
  ++ (match c.identity with
      | some (s, i) => [("identity", YVal.yid s i)]
      | none => [])
  ++ (match truthyStr (pyOr (dm.lookup c.name) c.inline_default) with
      | some e => [("default_expression", YVal.ys e)]
      | none => [])

/-- `emit_stage_yaml` up to serialization: `meta.primary_key` present only
when `pk_cols` is nonempty. -/
def emit_stage_yaml (table : String) (columns : List PyColumn)
    (pk_cols : List String) (default_map : List (String × String))
    (version : Rat) : StageDoc :=
  { version := version
    models := [{
      name := table
      description := ""
      meta := if pk_cols ≠ [] then [("primary_key", .yls pk_cols)] else []
      columns := columns.map (fun c =>
        { name := c.name, description := "", data_type := c.data_type
          meta := colMetaStage default_map c }) }] }

/-! ### `DDL_CREATE_RE` and the main pipelines -/

structure DdlMatch where
  schema : Option String
  table : String
  body : String
deriving DecidableEq, Repr

/-- `DDL_CREATE_RE` at the current position: the greedy DOTALL body runs to
the last close paren anywhere in the remaining text. -/
def mDdlCreate (s : List Char) : Option DdlMatch := do
  let r1 ← kw "CREATE" s
  let r2 ← ws1 r1
  let r3 ← kw "TABLE" r2
  let r4 ← ws1 r3
  let (sch, tbl, r5) ←
    (match brkW r4 with
     | some (w1, '.' :: t) =>
       match brkW t with
       | some (w2, t2) => some (some (strOf w1), strOf w2, t2)
       | none => none
     | some (w1, t) => some ((none : Option String), strOf w1, t)
     | none => none)
  let r6 ← chr '(' (ws0 r5)
  match r6.reverse.dropWhile (fun c => c ≠ ')') with
  | ')' :: bodyRev => some ⟨sch, tbl, strOf bodyRev.reverse⟩
  | _ => none

/-- `DDL_CREATE_RE.search(sql)`. -/
def ddlSearch (sql : String) : Option DdlMatch :=
  (searchSplit (fun _ t => mDdlCreate t) none sql.data).map (fun x => x.2.2)

def errNoCreate : String := "Could not find a CREATE TABLE statement."

structure DimArgs where
  business_key : Option String
  surrogate_key : Option String
deriving DecidableEq, Repr

structure DimRunOut where
  exitCode : Nat
  stdout : Option DimDoc
  stderr : List String
deriving DecidableEq, Repr

/-- `main` of the dim variant, from the file text on (pure part: file read
and argparse left out). -/
def dimMainRun (sql : String) (args : DimArgs) : DimRunOut :=
  match ddlSearch sql with
  | none => ⟨1, none, [errNoCreate]⟩
  | some m =>
    let schema := m.schema.getD "dbo"
    let table := m.table
    let (col_items, constraint_items) := split_columns_block_dim m.body
    let columns := parse_columns col_items
    let pk_cols := parse_primary_key constraint_items col_items
    let inferred_surrogate := if pk_cols.length = 1 then pk_cols.head? else none
    let inferred_bk := parse_unique_business_key sql constraint_items schema table
    let business_key_cols :=
      match args.business_key with
      | some s => if s = "" then inferred_bk else pyCsv s
      | none => inferred_bk
    let surrogate_key :=
      match args.surrogate_key with
      | some s => if s = "" then inferred_surrogate else some (pyStripStr s)
      | none => inferred_surrogate
    let default_map := parse_default_alters sql
    ⟨0, some (emit_dim_yaml table columns surrogate_key business_key_cols default_map), []⟩

structure StageArgs where
  primary_key : Option String
  version : Rat
deriving DecidableEq, Repr

structure StageRunOut where
  exitCode : Nat
  stdout : Option StageDoc
  stderr : List String
deriving DecidableEq, Repr

/-- The stage `main`'s merge loop (order-preserving, first-seen wins). -/
def mergeSeen : List String → List String → List String
  | [], _ => []
  | x :: xs, seen => if seen.contains x then mergeSeen xs seen else x :: mergeSeen xs (x :: seen)

/-- The primary-key resolution steps of the stage `main`: merge table-level
and inline PKs with de-duplication; fall back to the CLI list only when the
merge is empty (and the CLI string is truthy). -/
def stagePkResolve (constraint_items col_items : List String)
    (cli : Option String) : List String :=
  let (_, inline_pks) := parse_columns_stage col_items
  let table_pks := parse_primary_key_from_constraints constraint_items
  let merged := mergeSeen (table_pks ++ inline_pks) []
  if merged = [] then
    match cli with
    | some s => if s = "" then merged else pyCsv s
    | none => merged
  else merged

/-- `main` of the stage variant (pure part). -/
def stageMainRun (sql : String) (args : StageArgs) : StageRunOut :=
  match ddlSearch sql with
  | none => ⟨1, none, [errNoCreate]⟩
  | some m =>
    let table := m.table
    let (col_items, constraint_items) := split_columns_block_stage m.body
    let (columns, _) := parse_columns_stage col_items
    let pk_cols := stagePkResolve constraint_items col_items args.primary_key
    let default_map := parse_default_alters sql
    ⟨0, some (emit_stage_yaml table columns pk_cols default_map args.version), []⟩

/-! ### Claim-side comparison definitions -/

/-- First-seen-order de-duplication, stated independently of the source's
seen-set loop (used to phrase the spec's claimed merge). -/
def dedupFirstSeen : List String → List String
  | [] => []
  | x :: xs => x :: dedupFirstSeen (xs.filter (fun y => y != x))
termination_by l => l.length
decreasing_by
  simp only [List.length_cons]
  exact Nat.lt_succ_of_le (List.length_filter_le _ _)

/-- Claim C2's description of primary-key resolution: the merge of the
table-level and inline PK columns, de-duplicated preserving first-seen
order. -/
def claimedMergedPk (tableLevel inline : List String) : List String :=
  dedupFirstSeen (tableLevel ++ inline)

/-- The last `DEFAULT ... FOR [col]` match for a given column, described
independently of the dict fold; note it ignores the match's schema/table. -/
def lastDefaultFor (ms : List DfRec) (c : String) : Option String :=
  (ms.reverse.find? (fun r => r.col == c)).map (fun r => pyStripStr r.expr)

/-! ### Concrete scenario inputs used by the claims -/

/-- A file whose `CREATE TABLE` is followed by an `ALTER TABLE` statement
containing parentheses (claim C10). -/
def sqlTrailingAlter : String :=
  "CREATE TABLE [dbo].[T] ([A] INT, [B] INT)\nALTER TABLE [dbo].[T] ADD CONSTRAINT [DF_T_B] DEFAULT ((0)) FOR [B]"

/-- A file whose table has a `UNIQUE` constraint with an unbracketed column
and a unique index on the same table (claim C4 counterexample). -/
def sqlUqEmptyBrackets : String :=
  "CREATE UNIQUE NONCLUSTERED INDEX [IX] ON [dbo].[T] ([W])\nCREATE TABLE [dbo].[T] ([A] INT, UNIQUE (Z))"

/-- A file with a table-level `UNIQUE (X, Y)` and an unrelated unique index
on another schema.table (the spec's business-key exclusivity scenario). -/
def sqlUqExclusive : String :=
  "CREATE UNIQUE NONCLUSTERED INDEX [IX_other] ON [other_schema].[other_table] ([Z])\nCREATE TABLE [dbo].[DimT] ([X] INT, [Y] INT, UNIQUE ([X], [Y]))"

/-- A file whose only `DEFAULT ... FOR` statement targets a different
schema.table but names a column of the parsed table (claim C6). -/
def sqlForeignDefault : String :=
  "ALTER TABLE [other].[X] ADD CONSTRAINT [DF_X_C] DEFAULT ((0)) FOR [C]\nCREATE TABLE [dbo].[T] ([C] INT)"

end DbtDdl

/-! ## Theorems -/

namespace DbtDdl

/-- Item count of the splitter loop: one item per depth-zero comma, plus a
final item exactly when the leftover buffer strips to something nonempty. -/
theorem rawItemsAux_length (l : List Char) :
    ∀ buf d, (rawItemsAux l buf d).length
      = topCommaCount l d + (if lastChunk l buf d = [] then 0 else 1) := by
  induction l with
  | nil =>
    intro buf d
    simp only [rawItemsAux, topCommaCount, lastChunk]
    split <;> simp
  | cons c rest ih =>
    intro buf d
    simp only [rawItemsAux, topCommaCount, lastChunk]
    by_cases h : c = ',' ∧ stepDepth d c = 0
    · simp only [if_pos h, List.length_cons, ih]
      omega
    · simp only [if_neg h, ih]
      omega

end DbtDdl

/-- Claim C1: the splitter breaks the body into top-level items exactly at
commas at parenthesis depth zero (item count = depth-zero comma count, plus
one final item when the trailing buffer is nonempty after stripping), so a
comma inside a parenthesized type spec never produces a break; in particular
`"[A] INT, [B] DECIMAL(18,2), [C] NVARCHAR(MAX)"` yields exactly 3 items. -/
theorem claim_c1_split_depth_aware :
    (∀ body : String, (DbtDdl.rawItems body).length
        = DbtDdl.topCommaCount body.data 0
          + (if DbtDdl.lastChunk body.data [] 0 = [] then 0 else 1))
    ∧ DbtDdl.rawItems "[A] INT, [B] DECIMAL(18,2), [C] NVARCHAR(MAX)"
        = ["[A] INT", "[B] DECIMAL(18,2)", "[C] NVARCHAR(MAX)"]
    ∧ DbtDdl.topCommaCount "[A] INT, [B] DECIMAL(18,2), [C] NVARCHAR(MAX)".data 0 = 2
    ∧ DbtDdl.split_columns_block_dim "[A] INT, [B] DECIMAL(18,2), [C] NVARCHAR(MAX)"
        = (["[A] INT", "[B] DECIMAL(18,2)", "[C] NVARCHAR(MAX)"], [])
    ∧ DbtDdl.split_columns_block_stage "[A] INT, [B] DECIMAL(18,2), [C] NVARCHAR(MAX)"
        = (["[A] INT", "[B] DECIMAL(18,2)", "[C] NVARCHAR(MAX)"], []) := by
  refine ⟨fun body => DbtDdl.rawItemsAux_length body.data [] 0, ?_, ?_, ?_, ?_⟩ <;> decide

namespace DbtDdl

/-- A base type with no entry in `UNKNOWN_BY_TYPE` is not numeric (the
numeric bases all have entries). -/
theorem numeric_has_entry (base : String) (h : UNKNOWN_BY_TYPE base = none) :
    NUMERIC_BASES.contains base = false := by
  by_contra hc
  have hmem : base ∈ NUMERIC_BASES := by
    have : NUMERIC_BASES.contains base = true := by
      revert hc
      cases NUMERIC_BASES.contains base <;> simp
    simpa using this
  fin_cases hmem <;> simp_all [UNKNOWN_BY_TYPE]

/-- Each numeric base maps to a bare integer placeholder. -/
theorem unknownFromBase_numeric (base : String) (h : base ∈ NUMERIC_BASES) :
    ∃ n : Int, unknownFromBase base = .raw (.vint n) := by
  fin_cases h <;> first
    | exact ⟨0, by decide⟩
    | exact ⟨-1, by decide⟩

end DbtDdl

/-- Claim C5: `unknown_for_dtype` is a pure function of the canonical base
type; numeric bases give the table's bare number (-1 for INT, 0 for TINYINT
and BIT), every other base gives a single-quoted string, and a base absent
from the table gives the single-quoted string "Unknown". -/
theorem claim_c5_unknown_member :
    (∀ d1 d2 : String, DbtDdl.canonical_base_type d1 = DbtDdl.canonical_base_type d2 →
        DbtDdl.unknown_for_dtype d1 = DbtDdl.unknown_for_dtype d2)
    ∧ (∀ d : String, DbtDdl.NUMERIC_BASES.contains (DbtDdl.canonical_base_type d) = true →
        ∃ n : Int, DbtDdl.unknown_for_dtype d = .raw (.vint n))
    ∧ (∀ d : String, DbtDdl.NUMERIC_BASES.contains (DbtDdl.canonical_base_type d) = false →
        ∃ s : String, DbtDdl.unknown_for_dtype d = .singleQuoted s)
    ∧ (∀ d : String, DbtDdl.UNKNOWN_BY_TYPE (DbtDdl.canonical_base_type d) = none →
        DbtDdl.unknown_for_dtype d = .singleQuoted "Unknown")
    ∧ DbtDdl.unknown_for_dtype "INT" = .raw (.vint (-1))
    ∧ DbtDdl.unknown_for_dtype "TINYINT" = .raw (.vint 0)
    ∧ DbtDdl.unknown_for_dtype "BIT" = .raw (.vint 0)
    ∧ DbtDdl.unknown_for_dtype "NVARCHAR(50)" = .singleQuoted "Unknown"
    ∧ DbtDdl.unknown_for_dtype "GEOGRAPHY" = .singleQuoted "Unknown" := by
  refine ⟨?_, ?_, ?_, ?_, by decide, by decide, by decide, by decide, by decide⟩
  · intro d1 d2 h
    simp only [DbtDdl.unknown_for_dtype, h]
  · intro d h
    have hmem : DbtDdl.canonical_base_type d ∈ DbtDdl.NUMERIC_BASES := by simpa using h
    exact DbtDdl.unknownFromBase_numeric _ hmem
  · intro d h
    have hmem : DbtDdl.canonical_base_type d ∉ DbtDdl.NUMERIC_BASES := by simpa using h
    refine ⟨DbtDdl.pyStrOf ((DbtDdl.UNKNOWN_BY_TYPE
      (DbtDdl.canonical_base_type d)).getD (.vstr "Unknown")), ?_⟩
    simp [DbtDdl.unknown_for_dtype, DbtDdl.unknownFromBase, hmem]
  · intro d h
    have hnum := DbtDdl.numeric_has_entry _ h
    have hmem : DbtDdl.canonical_base_type d ∉ DbtDdl.NUMERIC_BASES := by simpa using hnum
    simp [DbtDdl.unknown_for_dtype, DbtDdl.unknownFromBase, h, hmem, DbtDdl.pyStrOf]

/-- Witness for claim C5's universally quantified parts at concrete inputs. -/
theorem claim_c5_unknown_member_witness :
    DbtDdl.unknown_for_dtype "[int]" = DbtDdl.unknown_for_dtype "INT (4)"
    ∧ DbtDdl.unknown_for_dtype "GEOMETRY" = .singleQuoted "Unknown" :=
  ⟨claim_c5_unknown_member.1 "[int]" "INT (4)" (by decide),
   claim_c5_unknown_member.2.2.2.1 "GEOMETRY" (by decide)⟩

/-- Claim C7: `[Id] [int] IDENTITY(1,1) NOT NULL PRIMARY KEY` parses to name
Id, type INT, not nullable, identity (1,1), inline PK; the emitted column
entry carries `meta.identity` and `meta.nullable: false`. -/
theorem claim_c7_identity_roundtrip :
    DbtDdl.parse_columns_stage ["[Id] [int] IDENTITY(1,1) NOT NULL PRIMARY KEY"]
      = ([⟨"Id", "INT", false, some (1, 1), none⟩], ["Id"])
    ∧ DbtDdl.parse_columns ["[Id] [int] IDENTITY(1,1) NOT NULL PRIMARY KEY"]
      = [⟨"Id", "INT", false, some (1, 1), none⟩]
    ∧ (DbtDdl.emit_stage_yaml "T" [⟨"Id", "INT", false, some (1, 1), none⟩] ["Id"] [] 2).models.map
        (fun m => m.columns.map (fun c => (c.name, c.meta)))
      = [[("Id", [("nullable", .yb false), ("identity", .yid 1 1)])]]
    ∧ (DbtDdl.emit_dim_yaml "T" [⟨"Id", "INT", false, some (1, 1), none⟩] (some "Id") [] []).models.map
        (fun m => m.columns.map (fun c =>
          (c.name, c.meta.lookup "identity", c.meta.lookup "nullable")))
      = [[("Id", some (.yid 1 1), some (.yb false))]] := by
  refine ⟨?_, ?_, ?_, ?_⟩ <;> decide

/-- Claim C8: when no `CREATE TABLE` matches, both variants print the
diagnostic to standard error, exit with code 1, and write nothing to
standard output. -/
theorem claim_c8_missing_create_table (sql : String)
    (da : DbtDdl.DimArgs) (sa : DbtDdl.StageArgs)
    (h : DbtDdl.ddlSearch sql = none) :
    DbtDdl.dimMainRun sql da = ⟨1, none, [DbtDdl.errNoCreate]⟩
    ∧ DbtDdl.stageMainRun sql sa = ⟨1, none, [DbtDdl.errNoCreate]⟩ := by
  constructor <;> simp [DbtDdl.dimMainRun, DbtDdl.stageMainRun, h]

/-- Witness for claim C8 at a concrete input with no CREATE TABLE. -/
theorem claim_c8_missing_create_table_witness :
    DbtDdl.ddlSearch "SELECT 1 FROM somewhere" = none
    ∧ DbtDdl.dimMainRun "SELECT 1 FROM somewhere" ⟨none, none⟩
        = ⟨1, none, [DbtDdl.errNoCreate]⟩
    ∧ DbtDdl.stageMainRun "SELECT 1 FROM somewhere" ⟨none, 2⟩
        = ⟨1, none, [DbtDdl.errNoCreate]⟩ := by
  have h : DbtDdl.ddlSearch "SELECT 1 FROM somewhere" = none := by decide
  have h2 := claim_c8_missing_create_table "SELECT 1 FROM somewhere" ⟨none, none⟩ ⟨none, 2⟩ h
  exact ⟨h, h2.1, h2.2⟩

/-- Claim C9: the dim document always carries `meta.business_key` (a list,
possibly empty) and `meta.surrogate_key` (a string, empty when unresolved),
while the stage document carries `meta.primary_key` only when the resolved
list is nonempty. -/
theorem claim_c9_meta_key_presence (table : String) (columns : List DbtDdl.PyColumn)
    (sk : Option String) (bk pk : List String)
    (dm : List (String × String)) (v : Rat) :
    (DbtDdl.emit_dim_yaml table columns sk bk dm).models.map
        (fun m => (m.meta.lookup "business_key", m.meta.lookup "surrogate_key"))
      = [(some (.yls bk), some (.ys (sk.getD "")))]
    ∧ (DbtDdl.emit_stage_yaml table columns pk dm v).models.map
        (fun m => m.meta.lookup "primary_key")
      = [if pk = [] then none else some (.yls pk)] := by
  constructor
  · rfl
  · cases pk <;> rfl

/-- Witness for claim C9 at concrete empty and nonempty key lists. -/
theorem claim_c9_meta_key_presence_witness :
    (DbtDdl.emit_dim_yaml "D" [] none [] []).models.map
        (fun m => (m.meta.lookup "business_key", m.meta.lookup "surrogate_key"))
      = [(some (.yls []), some (.ys ""))]
    ∧ (DbtDdl.emit_stage_yaml "S" [] [] [] 2).models.map
        (fun m => m.meta.lookup "primary_key") = [none]
    ∧ (DbtDdl.emit_stage_yaml "S" [] ["K"] [] 2).models.map
        (fun m => m.meta.lookup "primary_key") = [some (.yls ["K"])] :=
  ⟨(claim_c9_meta_key_presence "D" [] none [] [] [] 2).1,
   (claim_c9_meta_key_presence "S" [] none [] [] [] 2).2,
   (claim_c9_meta_key_presence "S" [] none [] ["K"] [] 2).2⟩

/-- Claim C10: in a file where the CREATE TABLE is followed by an ALTER
TABLE statement containing a close paren, the captured body runs to the last
close paren of the file, and the later statement's text shows up in the
splitter's output items. -/
theorem claim_c10_greedy_body :
    DbtDdl.ddlSearch DbtDdl.sqlTrailingAlter
      = some ⟨some "dbo", "T",
          "[A] INT, [B] INT)\nALTER TABLE [dbo].[T] ADD CONSTRAINT [DF_T_B] DEFAULT ((0)"⟩
    ∧ DbtDdl.split_columns_block_dim
          "[A] INT, [B] INT)\nALTER TABLE [dbo].[T] ADD CONSTRAINT [DF_T_B] DEFAULT ((0)"
        = (["[A] INT", "[B] INT)\nALTER TABLE [dbo].[T] ADD CONSTRAINT [DF_T_B] DEFAULT ((0)"], [])
    ∧ "ALTER TABLE".data
        <:+: "[B] INT)\nALTER TABLE [dbo].[T] ADD CONSTRAINT [DF_T_B] DEFAULT ((0)".data := by
  refine ⟨by decide, by decide, ?_⟩
  exact ⟨"[B] INT)\n".data, " [dbo].[T] ADD CONSTRAINT [DF_T_B] DEFAULT ((0)".data, by decide⟩

/-- Counterexample to claim C2: in the dim variant, a table with both a
table-level PRIMARY KEY constraint and an inline PK marker resolves to the
table-level columns alone, not the claimed de-duplicated merge. -/
theorem claim_c2_counterexample :
    DbtDdl.split_columns_block_dim "[A] INT PRIMARY KEY, CONSTRAINT [PK_T] PRIMARY KEY ([B])"
      = (["[A] INT PRIMARY KEY"], ["CONSTRAINT [PK_T] PRIMARY KEY ([B])"])
    ∧ DbtDdl.parse_primary_key_from_constraints ["CONSTRAINT [PK_T] PRIMARY KEY ([B])"] = ["B"]
    ∧ DbtDdl.dimInlinePks ["[A] INT PRIMARY KEY"] = ["A"]
    ∧ DbtDdl.claimedMergedPk ["B"] ["A"] = ["B", "A"]
    ∧ DbtDdl.parse_primary_key ["CONSTRAINT [PK_T] PRIMARY KEY ([B])"] ["[A] INT PRIMARY KEY"]
        = ["B"]
    ∧ (["B"] : List String) ≠ ["B", "A"] := by
  refine ⟨by decide, by decide, by decide, ?_, by decide, by decide⟩
  simp [DbtDdl.claimedMergedPk, DbtDdl.dedupFirstSeen]

/-- Counterexample to claim C3: the stage variant's splitter only detects
embedded `CONSTRAINT ... PRIMARY KEY`; an embedded `CONSTRAINT ... UNIQUE`
item is left whole among the column items, with no constraint tail. -/
theorem claim_c3_counterexample :
    DbtDdl.embFindDim "[B] INT CONSTRAINT [UQ_T] UNIQUE ([B])".data
      = some ("[B] INT ".data, "CONSTRAINT [UQ_T] UNIQUE ([B])".data, ())
    ∧ DbtDdl.embFindStage "[B] INT CONSTRAINT [UQ_T] UNIQUE ([B])".data = none
    ∧ DbtDdl.split_columns_block_stage "[A] INT, [B] INT CONSTRAINT [UQ_T] UNIQUE ([B])"
        = (["[A] INT", "[B] INT CONSTRAINT [UQ_T] UNIQUE ([B])"], [])
    ∧ DbtDdl.split_columns_block_dim "[A] INT, [B] INT CONSTRAINT [UQ_T] UNIQUE ([B])"
        = (["[A] INT", "[B] INT"], ["CONSTRAINT [UQ_T] UNIQUE ([B])"]) := by
  refine ⟨?_, ?_, ?_, ?_⟩ <;> decide

/-- Counterexample to claim C4: a constraint item can match
`UNIQUE_CONSTRAINT_RE` with an empty bracketed column list; the code then
falls through to the unique-index scan instead of using that (empty) list as
the business key. -/
theorem claim_c4_counterexample :
    DbtDdl.ddlSearch DbtDdl.sqlUqEmptyBrackets
      = some ⟨some "dbo", "T", "[A] INT, UNIQUE (Z)"⟩
    ∧ DbtDdl.split_columns_block_dim "[A] INT, UNIQUE (Z)" = (["[A] INT"], ["UNIQUE (Z)"])
    ∧ DbtDdl.uqConstraintSearch "UNIQUE (Z)" = some "Z"
    ∧ DbtDdl.bracketedAll "Z" = []
    ∧ DbtDdl.parse_unique_business_key DbtDdl.sqlUqEmptyBrackets ["UNIQUE (Z)"] "dbo" "T"
        = ["W"]
    ∧ (["W"] : List String) ≠ [] := by
  refine ⟨?_, ?_, ?_, ?_, ?_, ?_⟩ <;> decide


namespace DbtDdl

/-! ### Helper lemmas for the amended claims -/

theorem strOf_eq_empty_iff (l : List Char) : strOf l = "" ↔ l = [] := by
  constructor
  · intro h
    have := congrArg String.data h
    simpa [strOf] using this
  · intro h
    subst h
    rfl

theorem mem_dropWhile {p : Char → Bool} {a : Char} :
    ∀ {l : List Char}, a ∈ l → p a = false → a ∈ l.dropWhile p := by
  intro l
  induction l with
  | nil => intro h; cases h
  | cons h t ih =>
    intro hmem hpa
    by_cases hph : p h = true
    · rw [List.dropWhile_cons_of_pos hph]
      rcases List.mem_cons.mp hmem with rfl | hmt
      · rw [hph] at hpa; cases hpa
      · exact ih hmt hpa
    · rw [List.dropWhile_cons_of_neg hph]
      exact hmem

theorem mem_rstripP {p : Char → Bool} {a : Char} {l : List Char}
    (hal : a ∈ l) (hpa : p a = false) : a ∈ rstripP p l := by
  unfold rstripP
  rw [List.mem_reverse]
  exact mem_dropWhile (List.mem_reverse.mpr hal) hpa

theorem ws_toLower_ne (c : Char) (h : isWS c = true) : ¬ c.toLower = 'c' := by
  simp only [isWS, Bool.or_eq_true, decide_eq_true_eq] at h
  rcases h with ((((h | h) | h) | h) | h) | h <;> subst h <;> decide

theorem toLower_c_not_ws (c : Char) (h : c.toLower = 'c') : isWS c = false := by
  by_contra hx
  have ht : isWS c = true := by
    revert hx; cases isWS c <;> simp
  exact ws_toLower_ne c ht h

theorem kw_constraint_cons (c : Char) (cs : List Char) (hc : ¬ c.toLower = 'c') :
    kw "CONSTRAINT" (c :: cs) = none := by
  show dropKwCI "CONSTRAINT".data (c :: cs) = none
  rw [show "CONSTRAINT".data = 'C' :: "ONSTRAINT".data from rfl]
  have hC : 'C'.toLower = 'c' := by decide
  simp only [dropKwCI, hC]
  rw [if_neg hc]

theorem kw_constraint_nil : kw "CONSTRAINT" [] = none := rfl

theorem mEmbDim_none_head (prev : Option Char) (c : Char) (cs : List Char)
    (hc : ¬ c.toLower = 'c') : mEmbDim prev (c :: cs) = none := by
  simp [mEmbDim, kw_constraint_cons c cs hc]

theorem mEmbDim_nil (prev : Option Char) : mEmbDim prev [] = none := by
  cases hp : noWB prev <;> simp [mEmbDim, hp, kw_constraint_nil]

theorem mEmbStage_none_head (prev : Option Char) (c : Char) (cs : List Char)
    (hc : ¬ c.toLower = 'c') : mEmbStage prev (c :: cs) = none := by
  simp [mEmbStage, kw_constraint_cons c cs hc]

theorem mEmbStage_nil (prev : Option Char) : mEmbStage prev [] = none := by
  cases hp : noWB prev <;> simp [mEmbStage, hp, kw_constraint_nil]

theorem mEmbDim_head (prev : Option Char) (s : List Char) (u : Unit)
    (h : mEmbDim prev s = some u) : ∃ c cs, s = c :: cs ∧ c.toLower = 'c' := by
  cases s with
  | nil => rw [mEmbDim_nil] at h; cases h
  | cons c cs =>
    by_cases hc : c.toLower = 'c'
    · exact ⟨c, cs, rfl, hc⟩
    · rw [mEmbDim_none_head prev c cs hc] at h; cases h

theorem mEmbStage_head (prev : Option Char) (s : List Char) (u : Unit)
    (h : mEmbStage prev s = some u) : ∃ c cs, s = c :: cs ∧ c.toLower = 'c' := by
  cases s with
  | nil => rw [mEmbStage_nil] at h; cases h
  | cons c cs =>
    by_cases hc : c.toLower = 'c'
    · exact ⟨c, cs, rfl, hc⟩
    · rw [mEmbStage_none_head prev c cs hc] at h; cases h

/-- A successful search yields the matcher succeeding on the suffix. -/
theorem searchSplit_suf {α : Type} (m : Option Char → List Char → Option α) :
    ∀ (s : List Char) (prev : Option Char) (pre suf : List Char) (u : α),
      searchSplit m prev s = some (pre, suf, u) → ∃ prev2, m prev2 suf = some u := by
  intro s
  induction s with
  | nil =>
    intro prev pre suf u h
    simp only [searchSplit] at h
    cases hm : m prev [] with
    | some a =>
      simp only [hm] at h
      cases h
      exact ⟨prev, hm⟩
    | none =>
      simp only [hm] at h
      cases h
  | cons c cs ih =>
    intro prev pre suf u h
    simp only [searchSplit] at h
    cases hm : m prev (c :: cs) with
    | some a =>
      simp only [hm] at h
      cases h
      exact ⟨prev, hm⟩
    | none =>
      simp only [hm] at h
      cases hrec : searchSplit m (some c) cs with
      | some x =>
        obtain ⟨p, s2, a⟩ := x
        simp only [hrec] at h
        cases h
        exact ih (some c) _ _ _ hrec
      | none =>
        simp only [hrec] at h
        cases h

/-- Searching an item that starts (after whitespace) with `[` with a matcher
that only fires on a `c`/`C` head puts the bracket inside the prefix. -/
theorem searchSplit_pre_bracket (m : Option Char → List Char → Option Unit)
    (hm : ∀ prev c cs, ¬ c.toLower = 'c' → m prev (c :: cs) = none) :
    ∀ (s : List Char) (prev : Option Char) (pre suf : List Char) (u : Unit),
      (s.dropWhile isWS).head? = some '[' →
      searchSplit m prev s = some (pre, suf, u) → '[' ∈ pre := by
  intro s
  induction s with
  | nil => intro prev pre suf u h; simp [List.dropWhile] at h
  | cons c cs ih =>
    intro prev pre suf u h hs
    by_cases hws : isWS c = true
    · have hc := ws_toLower_ne c hws
      simp only [searchSplit] at hs
      simp only [hm prev c cs hc] at hs
      cases hrec : searchSplit m (some c) cs with
      | some x =>
        obtain ⟨p, s2, a⟩ := x
        simp only [hrec] at hs
        cases hs
        rw [List.dropWhile_cons_of_pos hws] at h
        exact List.mem_cons_of_mem _ (ih (some c) _ _ _ h hrec)
      | none =>
        simp only [hrec] at hs
        cases hs
    · have hbf : isWS c = false := by revert hws; cases isWS c <;> simp
      rw [List.dropWhile_cons_of_neg (by simp [hbf])] at h
      have hc : c = '[' := by simpa using h
      subst hc
      simp only [searchSplit] at hs
      simp only [hm prev '[' cs (by decide)] at hs
      cases hrec : searchSplit m (some '[') cs with
      | some x =>
        obtain ⟨p, s2, a⟩ := x
        simp only [hrec] at hs
        cases hs
        exact List.mem_cons_self _ _
      | none =>
        simp only [hrec] at hs
        cases hs

end DbtDdl

namespace DbtDdl

theorem pyStrip_ne_nil {c : Char} {t : List Char} (hws : isWS c = false) :
    pyStrip (c :: t) ≠ [] := by
  unfold pyStrip
  have h1 : c ∈ List.dropWhile isWS (c :: t) := by
    rw [List.dropWhile_cons_of_neg (by simp [hws])]
    exact List.mem_cons_self _ _
  exact List.ne_nil_of_mem (mem_rstripP h1 hws)

theorem head_ne_empty_of_bracket {pre : List Char} (h : '[' ∈ pre) :
    strOf (rstripP (fun c => c = ',') (rstripP isWS pre)) ≠ "" := by
  have h1 : '[' ∈ rstripP isWS pre := mem_rstripP h (by decide)
  have h2 : '[' ∈ rstripP (fun c => c = ',') (rstripP isWS pre) :=
    mem_rstripP h1 (by decide)
  rw [Ne, strOf_eq_empty_iff]
  exact List.ne_nil_of_mem h2

theorem tail_ne_empty {suf : List Char}
    (h : ∃ c cs, suf = c :: cs ∧ c.toLower = 'c') : strOf (pyStrip suf) ≠ "" := by
  obtain ⟨c, cs, rfl, hc⟩ := h
  rw [Ne, strOf_eq_empty_iff]
  exact pyStrip_ne_nil (toLower_c_not_ws c hc)

/-- The classification loop distributes over list concatenation. -/
theorem classify_append (emb : List Char → Option (List Char × List Char × Unit)) :
    ∀ xs ys : List String,
      classifyAux emb (xs ++ ys)
        = ((classifyAux emb xs).1 ++ (classifyAux emb ys).1,
           (classifyAux emb xs).2 ++ (classifyAux emb ys).2) := by
  intro xs ys
  induction xs with
  | nil => simp [classifyAux]
  | cons it xs ih =>
    by_cases hb : startsBracket it = true
    · cases he : emb it.data with
      | some x =>
        obtain ⟨pre, suf, u⟩ := x
        simp only [List.cons_append, classifyAux, ih, hb, he, if_true]
        split_ifs <;> simp [ih]
      | none => simp [List.cons_append, classifyAux, ih, hb, he]
    · simp [List.cons_append, classifyAux, ih, hb]

/-- The dim splitter cuts an embedded `CONSTRAINT ... (PRIMARY KEY|UNIQUE)`
off a column item: nonempty head to the column items, nonempty tail to the
constraint items. -/
theorem classify_embedded_dim (it : String) (pre suf : List Char) (u : Unit)
    (hb : startsBracket it = true)
    (he : embFindDim it.data = some (pre, suf, u)) :
    classifyAux embFindDim [it]
      = ([strOf (rstripP (fun c => c = ',') (rstripP isWS pre))], [strOf (pyStrip suf)])
    ∧ strOf (rstripP (fun c => c = ',') (rstripP isWS pre)) ≠ ""
    ∧ strOf (pyStrip suf) ≠ "" := by
  have hbr : (it.data.dropWhile isWS).head? = some '[' := by
    simpa [startsBracket] using hb
  have hpre : '[' ∈ pre :=
    searchSplit_pre_bracket mEmbDim mEmbDim_none_head it.data none pre suf u hbr he
  have hsufne : strOf (pyStrip suf) ≠ "" := by
    obtain ⟨prev2, hm2⟩ := searchSplit_suf mEmbDim it.data none pre suf u he
    exact tail_ne_empty (mEmbDim_head prev2 suf u hm2)
  have hheadne := head_ne_empty_of_bracket hpre
  refine ⟨?_, hheadne, hsufne⟩
  simp [classifyAux, hb, he, hheadne, hsufne]

/-- The stage splitter does the same, but only for an embedded
`CONSTRAINT ... PRIMARY KEY`. -/
theorem classify_embedded_stage (it : String) (pre suf : List Char) (u : Unit)
    (hb : startsBracket it = true)
    (he : embFindStage it.data = some (pre, suf, u)) :
    classifyAux embFindStage [it]
      = ([strOf (rstripP (fun c => c = ',') (rstripP isWS pre))], [strOf (pyStrip suf)])
    ∧ strOf (rstripP (fun c => c = ',') (rstripP isWS pre)) ≠ ""
    ∧ strOf (pyStrip suf) ≠ "" := by
  have hbr : (it.data.dropWhile isWS).head? = some '[' := by
    simpa [startsBracket] using hb
  have hpre : '[' ∈ pre :=
    searchSplit_pre_bracket mEmbStage mEmbStage_none_head it.data none pre suf u hbr he
  have hsufne : strOf (pyStrip suf) ≠ "" := by
    obtain ⟨prev2, hm2⟩ := searchSplit_suf mEmbStage it.data none pre suf u he
    exact tail_ne_empty (mEmbStage_head prev2 suf u hm2)
  have hheadne := head_ne_empty_of_bracket hpre
  refine ⟨?_, hheadne, hsufne⟩
  simp [classifyAux, hb, he, hheadne, hsufne]

end DbtDdl

/-- Claim C3, amended: both splitters process items independently; the dim
splitter cuts an embedded `CONSTRAINT ... (PRIMARY KEY|UNIQUE)` into a
nonempty column head and a nonempty constraint tail, while the stage
splitter does so only for `CONSTRAINT ... PRIMARY KEY` and leaves an item
whose embedded constraint is of the UNIQUE form whole among the column
items. -/
theorem claim_c3_amended :
    (∀ xs ys : List String,
      DbtDdl.classifyAux DbtDdl.embFindDim (xs ++ ys)
        = ((DbtDdl.classifyAux DbtDdl.embFindDim xs).1
             ++ (DbtDdl.classifyAux DbtDdl.embFindDim ys).1,
           (DbtDdl.classifyAux DbtDdl.embFindDim xs).2
             ++ (DbtDdl.classifyAux DbtDdl.embFindDim ys).2))
    ∧ (∀ (it : String) (pre suf : List Char) (u : Unit),
        DbtDdl.startsBracket it = true →
        DbtDdl.embFindDim it.data = some (pre, suf, u) →
        DbtDdl.classifyAux DbtDdl.embFindDim [it]
          = ([DbtDdl.strOf (DbtDdl.rstripP (fun c => c = ',') (DbtDdl.rstripP DbtDdl.isWS pre))],
             [DbtDdl.strOf (DbtDdl.pyStrip suf)])
        ∧ DbtDdl.strOf (DbtDdl.rstripP (fun c => c = ',') (DbtDdl.rstripP DbtDdl.isWS pre)) ≠ ""
        ∧ DbtDdl.strOf (DbtDdl.pyStrip suf) ≠ "")
    ∧ (∀ (it : String) (pre suf : List Char) (u : Unit),
        DbtDdl.startsBracket it = true →
        DbtDdl.embFindStage it.data = some (pre, suf, u) →
        DbtDdl.classifyAux DbtDdl.embFindStage [it]
          = ([DbtDdl.strOf (DbtDdl.rstripP (fun c => c = ',') (DbtDdl.rstripP DbtDdl.isWS pre))],
             [DbtDdl.strOf (DbtDdl.pyStrip suf)])
        ∧ DbtDdl.strOf (DbtDdl.rstripP (fun c => c = ',') (DbtDdl.rstripP DbtDdl.isWS pre)) ≠ ""
        ∧ DbtDdl.strOf (DbtDdl.pyStrip suf) ≠ "")
    ∧ (∀ it : String, DbtDdl.startsBracket it = true →
        DbtDdl.embFindStage it.data = none →
        DbtDdl.classifyAux DbtDdl.embFindStage [it] = ([DbtDdl.pyStripStr it], [])) := by
  refine ⟨DbtDdl.classify_append _, DbtDdl.classify_embedded_dim,
    DbtDdl.classify_embedded_stage, ?_⟩
  intro it hb he
  simp [DbtDdl.classifyAux, hb, he]

/-- Witness for claim C3's amended statement at concrete items. -/
theorem claim_c3_amended_witness :
    DbtDdl.classifyAux DbtDdl.embFindDim ["[B] INT CONSTRAINT [UQ_T] UNIQUE ([B])"]
      = (["[B] INT"], ["CONSTRAINT [UQ_T] UNIQUE ([B])"])
    ∧ DbtDdl.classifyAux DbtDdl.embFindStage ["[B] INT CONSTRAINT [PK_B] PRIMARY KEY ([B])"]
      = (["[B] INT"], ["CONSTRAINT [PK_B] PRIMARY KEY ([B])"])
    ∧ DbtDdl.classifyAux DbtDdl.embFindStage ["[B] INT CONSTRAINT [UQ_T] UNIQUE ([B])"]
      = (["[B] INT CONSTRAINT [UQ_T] UNIQUE ([B])"], []) := by
  refine ⟨?_, ?_, ?_⟩
  · have h := claim_c3_amended.2.1 "[B] INT CONSTRAINT [UQ_T] UNIQUE ([B])"
      "[B] INT ".data "CONSTRAINT [UQ_T] UNIQUE ([B])".data () (by decide) (by decide)
    exact h.1.trans (by decide)
  · have h := claim_c3_amended.2.2.1 "[B] INT CONSTRAINT [PK_B] PRIMARY KEY ([B])"
      "[B] INT ".data "CONSTRAINT [PK_B] PRIMARY KEY ([B])".data () (by decide) (by decide)
    exact h.1.trans (by decide)
  · exact claim_c3_amended.2.2.2 "[B] INT CONSTRAINT [UQ_T] UNIQUE ([B])"
      (by decide) (by decide)

namespace DbtDdl

/-- If the index scan returns a nonempty list, it is the bracketed column
list of some unique-index match that targets the parsed table. -/
theorem uqIndexScan_sound (schema table : String) :
    ∀ us : List UIdx, uqIndexScan schema table us ≠ [] →
      ∃ u ∈ us, uidxTargets u schema table = true
        ∧ uqIndexScan schema table us = bracketedAll u.cols := by
  intro us
  induction us with
  | nil => intro h; simp [uqIndexScan] at h
  | cons u us ih =>
    intro h
    by_cases ht : uidxTargets u schema table = true
    · by_cases hc : bracketedAll u.cols = []
      · rw [uqIndexScan, if_pos ht] at h ⊢
        simp only [hc, ite_not, if_pos rfl] at h ⊢
        obtain ⟨u2, hmem, htg, heq⟩ := ih h
        exact ⟨u2, List.mem_cons_of_mem _ hmem, htg, heq⟩
      · refine ⟨u, List.mem_cons_self _ _, ht, ?_⟩
        rw [uqIndexScan, if_pos ht]
        simp [hc]
    · rw [uqIndexScan, if_neg ht] at h ⊢
      obtain ⟨u2, hmem, htg, heq⟩ := ih h
      exact ⟨u2, List.mem_cons_of_mem _ hmem, htg, heq⟩

end DbtDdl

/-- Claim C4, amended: the first constraint item whose UNIQUE match has a
nonempty bracketed column list wins outright; only when no constraint item
succeeds that way does a unique index contribute, and then only one whose
(dbo-defaulted, case-insensitive) schema and table match the parsed table;
the spec's exclusivity scenario resolves to the table's own UNIQUE columns. -/
theorem claim_c4_amended :
    (∀ (sql : String) (cs : List String) (sch tbl : String) (cols : List String),
      DbtDdl.firstUqNonempty cs = some cols →
      DbtDdl.parse_unique_business_key sql cs sch tbl = cols)
    ∧ (∀ (sql : String) (cs : List String) (sch tbl : String),
      DbtDdl.firstUqNonempty cs = none →
      DbtDdl.parse_unique_business_key sql cs sch tbl ≠ [] →
      ∃ u ∈ DbtDdl.uniqueIndexMatches sql, DbtDdl.uidxTargets u sch tbl = true
        ∧ DbtDdl.parse_unique_business_key sql cs sch tbl = DbtDdl.bracketedAll u.cols)
    ∧ (DbtDdl.dimMainRun DbtDdl.sqlUqExclusive ⟨none, none⟩).stdout.map
        (fun d => d.models.map (fun m => m.meta.lookup "business_key"))
      = some [some (.yls ["X", "Y"])] := by
  refine ⟨?_, ?_, by decide⟩
  · intro sql cs sch tbl cols h
    simp [DbtDdl.parse_unique_business_key, h]
  · intro sql cs sch tbl h hne
    rw [DbtDdl.parse_unique_business_key, h] at hne ⊢
    exact DbtDdl.uqIndexScan_sound sch tbl _ hne

/-- Witness for claim C4's amended statement at concrete inputs. -/
theorem claim_c4_amended_witness :
    DbtDdl.parse_unique_business_key "" ["CONSTRAINT [UQ] UNIQUE ([X],[Y])"] "dbo" "T"
      = ["X", "Y"]
    ∧ ∃ u ∈ DbtDdl.uniqueIndexMatches
          "CREATE UNIQUE NONCLUSTERED INDEX [IX] ON [dbo].[T] ([W])",
        DbtDdl.uidxTargets u "dbo" "T" = true
        ∧ DbtDdl.parse_unique_business_key
            "CREATE UNIQUE NONCLUSTERED INDEX [IX] ON [dbo].[T] ([W])" [] "dbo" "T"
          = DbtDdl.bracketedAll u.cols := by
  constructor
  · exact claim_c4_amended.1 "" ["CONSTRAINT [UQ] UNIQUE ([X],[Y])"] "dbo" "T"
      ["X", "Y"] (by decide)
  · exact claim_c4_amended.2.1
      "CREATE UNIQUE NONCLUSTERED INDEX [IX] ON [dbo].[T] ([W])" [] "dbo" "T"
      (by decide) (by decide)

namespace DbtDdl

/-- The variants' first-match loop over constraint items is `findSome?`. -/
theorem firstPk_findSome (cs : List String) :
    firstPkConstraintCols cs = cs.findSome? pkConstraintSearch := by
  induction cs with
  | nil => rfl
  | cons c cs ih =>
    cases h : pkConstraintSearch c <;>
      simp [firstPkConstraintCols, List.findSome?_cons, h, ih]

/-- The stage `main`'s seen-set loop is first-seen-order de-duplication. -/
theorem mergeSeen_eq_dedup :
    ∀ (l seen : List String),
      mergeSeen l seen = dedupFirstSeen (l.filter (fun y => !(seen.contains y))) := by
  intro l
  induction l with
  | nil => intro seen; simp [mergeSeen, dedupFirstSeen]
  | cons x xs ih =>
    intro seen
    by_cases hx : seen.contains x = true
    · simp only [mergeSeen, hx, if_true, List.filter_cons, Bool.not_true,
        Bool.false_eq_true, if_false]
      exact ih seen
    · have hxf : seen.contains x = false := by revert hx; cases seen.contains x <;> simp
      simp only [mergeSeen, hxf, Bool.false_eq_true, if_false, List.filter_cons,
        Bool.not_false, if_true]
      rw [dedupFirstSeen, ih (x :: seen), List.filter_filter]
      congr 1
      congr 1
      apply List.filter_congr
      intro y _
      by_cases hyx : y = x <;> simp [List.contains_cons, Bool.not_or, bne, hyx]

theorem mergeSeen_nil_eq (l : List String) : mergeSeen l [] = dedupFirstSeen l := by
  rw [mergeSeen_eq_dedup l []]
  congr 1
  simp

end DbtDdl

/-- Claim C2, amended: in the stage variant the resolved primary key is the
first-seen-order de-duplicated merge of the table-level constraint columns
with the inline markers, and the CLI list is consulted only when that merge
is empty; in the dim variant the first matching table-level constraint wins
alone (no merge with the inline markers, which are used only when no
constraint matches). -/
theorem claim_c2_amended :
    (∀ (cs ci : List String) (cli : Option String),
      DbtDdl.stagePkResolve cs ci cli =
        (let merged := DbtDdl.claimedMergedPk (DbtDdl.parse_primary_key_from_constraints cs)
            (DbtDdl.parse_columns_stage ci).2
         if merged = [] then
           (match cli with
            | some s => if s = "" then [] else DbtDdl.pyCsv s
            | none => [])
         else merged))
    ∧ (∀ cs ci : List String,
      DbtDdl.parse_primary_key cs ci =
        (match cs.findSome? DbtDdl.pkConstraintSearch with
         | some g => DbtDdl.bracketedAll g
         | none => DbtDdl.dimInlinePks ci)) := by
  constructor
  · intro cs ci cli
    simp only [DbtDdl.stagePkResolve, DbtDdl.claimedMergedPk, DbtDdl.mergeSeen_nil_eq]
    by_cases h : DbtDdl.dedupFirstSeen
        (DbtDdl.parse_primary_key_from_constraints cs ++ (DbtDdl.parse_columns_stage ci).2)
        = []
    · simp [h]
    · simp [h]
  · intro cs ci
    simp only [DbtDdl.parse_primary_key, DbtDdl.firstPk_findSome]

namespace DbtDdl

theorem lookup_map_update (m : List (String × String)) (k v c : String) (hck : ¬ c = k) :
    List.lookup c (m.map (fun p => if p.1 = k then (k, v) else p)) = List.lookup c m := by
  induction m with
  | nil => rfl
  | cons a m ih =>
    obtain ⟨a1, a2⟩ := a
    simp only [List.map_cons]
    by_cases hak : a1 = k
    · subst hak
      rw [if_pos rfl]
      have h1 : (c == a1) = false := by simpa using hck
      simp only [List.lookup_cons, h1]
      exact ih
    · rw [if_neg hak]
      cases hca : c == a1
      · simp only [List.lookup_cons, hca]
        exact ih
      · simp only [List.lookup_cons, hca]

theorem lookup_map_update_self (m : List (String × String)) (k v : String)
    (hany : m.any (fun p => p.1 = k) = true) :
    List.lookup k (m.map (fun p => if p.1 = k then (k, v) else p)) = some v := by
  induction m with
  | nil => simp at hany
  | cons a m ih =>
    obtain ⟨a1, a2⟩ := a
    simp only [List.map_cons]
    by_cases hak : a1 = k
    · subst hak
      rw [if_pos rfl]
      simp [List.lookup_cons]
    · rw [if_neg hak]
      have hka : (k == a1) = false := by
        rw [beq_eq_false_iff_ne]
        intro h
        exact hak h.symm
      have hany2 : m.any (fun p => p.1 = k) = true := by
        simpa [hak] using hany
      simp only [List.lookup_cons, hka]
      exact ih hany2

theorem lookup_append_single (m : List (String × String)) (k v c : String) :
    List.lookup c (m ++ [(k, v)])
      = (List.lookup c m).or (if c = k then some v else none) := by
  induction m with
  | nil =>
    simp only [List.nil_append, List.lookup, Option.none_or]
    by_cases h : c = k
    · have ht : (c == k) = true := by simpa using h
      simp only [List.lookup_cons, ht, if_pos h]
    · have hf : (c == k) = false := by simpa using h
      simp only [List.lookup_cons, hf, if_neg h]
  | cons a m ih =>
    obtain ⟨a1, a2⟩ := a
    simp only [List.cons_append]
    cases hca : c == a1
    · simp only [List.lookup_cons, hca]
      exact ih
    · simp only [List.lookup_cons, hca, Option.or_some]

theorem lookup_none_of_not_any (m : List (String × String)) (k : String)
    (h : m.any (fun p => p.1 = k) = false) : List.lookup k m = none := by
  induction m with
  | nil => rfl
  | cons a m ih =>
    obtain ⟨a1, a2⟩ := a
    simp only [List.any_cons, Bool.or_eq_false_iff] at h
    have hka : (k == a1) = false := by
      rw [beq_eq_false_iff_ne]
      intro he
      rw [← he] at h
      simpa using h.1
    simp only [List.lookup_cons, hka]
    exact ih h.2

/-- Python dict insertion seen through lookup: the inserted key maps to the
new value, all other keys are untouched. -/
theorem lookup_pyDictInsert (m : List (String × String)) (k v c : String) :
    List.lookup c (pyDictInsert m k v) = if c = k then some v else List.lookup c m := by
  by_cases hany : m.any (fun p => p.1 = k) = true
  · rw [pyDictInsert, if_pos hany]
    by_cases hck : c = k
    · subst hck
      rw [if_pos rfl]
      exact lookup_map_update_self m c v hany
    · rw [if_neg hck]
      exact lookup_map_update m k v c hck
  · have hanyf : m.any (fun p => p.1 = k) = false := by
      revert hany; cases m.any (fun p => p.1 = k) <;> simp
    rw [pyDictInsert, if_neg hany, lookup_append_single]
    by_cases hck : c = k
    · subst hck
      rw [lookup_none_of_not_any m c hanyf]
      simp
    · simp [hck, Option.or_none]

/-- The dict-comprehension fold seen through lookup: the value for a column
is the expression of the last match with that column name, regardless of
every other field of the matches. -/
theorem foldl_insert_lookup :
    ∀ (ms : List DfRec) (acc : List (String × String)) (c : String),
      List.lookup c (ms.foldl (fun m r => pyDictInsert m r.col (pyStripStr r.expr)) acc)
        = (lastDefaultFor ms c).or (List.lookup c acc) := by
  intro ms
  induction ms with
  | nil => intro acc c; simp [lastDefaultFor]
  | cons r ms ih =>
    intro acc c
    rw [List.foldl_cons, ih, lookup_pyDictInsert]
    simp only [lastDefaultFor, List.reverse_cons, List.find?_append]
    cases hf : List.find? (fun x => x.col == c) ms.reverse with
    | some r2 =>
      simp [Option.or_some]
    | none =>
      cases hrc : r.col == c with
      | true =>
        have hcr : c = r.col := (beq_iff_eq.mp hrc).symm
        simp [List.find?_cons, hrc, hcr]
      | false =>
        have hcr : ¬ c = r.col := by
          intro h; rw [h] at hrc; simp at hrc
        simp [List.find?_cons, hrc, hcr]

end DbtDdl

/-- Claim C6: default-expression resolution is table-unscoped: the mapping
depends only on the (column, expression) pairs of the `DEFAULT ... FOR`
matches anywhere in the file (last match per column wins), never on the
schema/table they target; concretely, a default declared for column C of
[other].[X] is applied to column C of the parsed table [dbo].[T]. -/
theorem claim_c6_defaults_unscoped :
    (∀ (sql : String) (c : String),
      List.lookup c (DbtDdl.parse_default_alters sql)
        = DbtDdl.lastDefaultFor (DbtDdl.defaultMatches sql) c)
    ∧ DbtDdl.defaultMatches DbtDdl.sqlForeignDefault = [⟨some "other", "X", "(0)", "C"⟩]
    ∧ DbtDdl.ddlSearch DbtDdl.sqlForeignDefault = some ⟨some "dbo", "T", "[C] INT"⟩
    ∧ (DbtDdl.dimMainRun DbtDdl.sqlForeignDefault ⟨none, none⟩).stdout.map
        (fun d => d.models.map (fun m =>
          m.columns.map (fun col => (col.name, col.meta.lookup "default_expression"))))
      = some [[("C", some (.ys "(0)"))]] := by
  refine ⟨?_, by decide, by decide, by decide⟩
  intro sql c
  rw [DbtDdl.parse_default_alters, DbtDdl.foldl_insert_lookup]
  simp
